import Mathlib

/-!
Verification of the openbook market client (src/src/market.rs).

The embedding models ledger addresses as natural numbers, account buffers as
structured values, and the remote ledger connection as a record of responses
(the World).  Every operation of the Market struct is translated into a pure
function returning its result, the updated Market value, and the ordered list
of remote (RPC) calls it performed.
-/

namespace Openbook

/-- Ledger addresses (Pubkey) are modelled as natural numbers.  The Rust
Pubkey::default() (all zero bytes) corresponds to 0. -/
abbrev Pubkey := Nat

/-- A leaf node of the critbit slab (the on-chain order-book tree).  The
128-bit key doubles as the order id and its upper 64 bits are the raw price,
exactly as in the openbook_dex LeafNode.  The owner field holds the address
decoded from the stored owner words (u64_slice_to_bytes followed by
Pubkey::from, which together are a bijection on the raw bytes and are hence
modelled as the identity). -/
structure LeafNode where
  key : Nat
  owner : Pubkey
deriving DecidableEq

/-- Order id of a node: the full 128-bit key (LeafNode::order_id). -/
def LeafNode.orderId (n : LeafNode) : Nat := n.key

/-- Raw price of a node: the upper 64 bits of the key (LeafNode::price).  In
the Rust crate this value is wrapped in NonZeroU64; well-formed slabs only
contain nodes with a non-zero price. -/
def LeafNode.price (n : LeafNode) : Nat := n.key >>> 64

/-- Human-readable price: the raw price divided by 1e4, computed exactly in
the rationals (the Rust code uses f64 division by 1e4). -/
def LeafNode.uiPrice (n : LeafNode) : ℚ := (n.price : ℚ) / 10000

/-- The remove-min operation of the slab: returns the node with the least key
together with the remaining nodes (Slab::remove_min of the openbook_dex
crate, specified at its interface boundary). -/
def removeMin : List LeafNode → Option (LeafNode × List LeafNode)
  | [] => none
  | n :: rest =>
    match removeMin rest with
    | none => some (n, [])
    | some (m, rest') => if m.key < n.key then some (m, n :: rest') else some (n, rest)

/-- The remove-max operation of the slab: returns the node with the greatest
key together with the remaining nodes (Slab::remove_max). -/
def removeMax : List LeafNode → Option (LeafNode × List LeafNode)
  | [] => none
  | n :: rest =>
    match removeMax rest with
    | none => some (n, [])
    | some (m, rest') => if n.key < m.key then some (m, n :: rest') else some (n, rest)

theorem removeMin_eq_none {l : List LeafNode} : removeMin l = none ↔ l = [] := by
  cases l with
  | nil => simp [removeMin]
  | cons n rest =>
    simp only [removeMin]
    cases h : removeMin rest with
    | none => simp
    | some p =>
      obtain ⟨m, r⟩ := p
      by_cases hk : m.key < n.key <;> simp [hk]

theorem removeMax_eq_none {l : List LeafNode} : removeMax l = none ↔ l = [] := by
  cases l with
  | nil => simp [removeMax]
  | cons n rest =>
    simp only [removeMax]
    cases h : removeMax rest with
    | none => simp
    | some p =>
      obtain ⟨m, r⟩ := p
      by_cases hk : n.key < m.key <;> simp [hk]

theorem removeMin_perm {l : List LeafNode} {p : LeafNode} {rest : List LeafNode}
    (h : removeMin l = some (p, rest)) : l.Perm (p :: rest) := by
  induction l generalizing p rest with
  | nil => simp [removeMin] at h
  | cons n t ih =>
    simp only [removeMin] at h
    cases ht : removeMin t with
    | none =>
      rw [ht] at h
      simp only [Option.some.injEq, Prod.mk.injEq] at h
      obtain ⟨rfl, rfl⟩ := h
      have htnil : t = [] := removeMin_eq_none.mp ht
      subst htnil
      exact List.Perm.refl _
    | some q =>
      obtain ⟨m, r⟩ := q
      rw [ht] at h
      by_cases hk : m.key < n.key
      · simp only [if_pos hk, Option.some.injEq, Prod.mk.injEq] at h
        obtain ⟨rfl, rfl⟩ := h
        exact (List.Perm.cons n (ih ht)).trans (List.Perm.swap m n r)
      · simp only [if_neg hk, Option.some.injEq, Prod.mk.injEq] at h
        obtain ⟨rfl, rfl⟩ := h
        exact List.Perm.refl _

theorem removeMax_perm {l : List LeafNode} {p : LeafNode} {rest : List LeafNode}
    (h : removeMax l = some (p, rest)) : l.Perm (p :: rest) := by
  induction l generalizing p rest with
  | nil => simp [removeMax] at h
  | cons n t ih =>
    simp only [removeMax] at h
    cases ht : removeMax t with
    | none =>
      rw [ht] at h
      simp only [Option.some.injEq, Prod.mk.injEq] at h
      obtain ⟨rfl, rfl⟩ := h
      have htnil : t = [] := removeMax_eq_none.mp ht
      subst htnil
      exact List.Perm.refl _
    | some q =>
      obtain ⟨m, r⟩ := q
      rw [ht] at h
      by_cases hk : n.key < m.key
      · simp only [if_pos hk, Option.some.injEq, Prod.mk.injEq] at h
        obtain ⟨rfl, rfl⟩ := h
        exact (List.Perm.cons n (ih ht)).trans (List.Perm.swap m n r)
      · simp only [if_neg hk, Option.some.injEq, Prod.mk.injEq] at h
        obtain ⟨rfl, rfl⟩ := h
        exact List.Perm.refl _

theorem removeMin_le {l : List LeafNode} {p : LeafNode} {rest : List LeafNode}
    (h : removeMin l = some (p, rest)) : ∀ x ∈ l, p.key ≤ x.key := by
  induction l generalizing p rest with
  | nil => simp [removeMin] at h
  | cons n t ih =>
    simp only [removeMin] at h
    cases ht : removeMin t with
    | none =>
      rw [ht] at h
      simp only [Option.some.injEq, Prod.mk.injEq] at h
      obtain ⟨rfl, -⟩ := h
      have htnil : t = [] := removeMin_eq_none.mp ht
      subst htnil
      intro x hx
      simp only [List.mem_singleton] at hx
      subst hx
      exact le_refl _
    | some q =>
      obtain ⟨m, r⟩ := q
      rw [ht] at h
      by_cases hk : m.key < n.key
      · simp only [if_pos hk, Option.some.injEq, Prod.mk.injEq] at h
        obtain ⟨rfl, -⟩ := h
        intro x hx
        rcases List.mem_cons.mp hx with hxe | hxt
        · subst hxe; exact le_of_lt hk
        · exact ih ht x hxt
      · simp only [if_neg hk, Option.some.injEq, Prod.mk.injEq] at h
        obtain ⟨rfl, -⟩ := h
        intro x hx
        rcases List.mem_cons.mp hx with hxe | hxt
        · subst hxe; exact le_refl _
        · exact le_trans (Nat.le_of_not_lt hk) (ih ht x hxt)

theorem removeMax_ge {l : List LeafNode} {p : LeafNode} {rest : List LeafNode}
    (h : removeMax l = some (p, rest)) : ∀ x ∈ l, x.key ≤ p.key := by
  induction l generalizing p rest with
  | nil => simp [removeMax] at h
  | cons n t ih =>
    simp only [removeMax] at h
    cases ht : removeMax t with
    | none =>
      rw [ht] at h
      simp only [Option.some.injEq, Prod.mk.injEq] at h
      obtain ⟨rfl, -⟩ := h
      have htnil : t = [] := removeMax_eq_none.mp ht
      subst htnil
      intro x hx
      simp only [List.mem_singleton] at hx
      subst hx
      exact le_refl _
    | some q =>
      obtain ⟨m, r⟩ := q
      rw [ht] at h
      by_cases hk : n.key < m.key
      · simp only [if_pos hk, Option.some.injEq, Prod.mk.injEq] at h
        obtain ⟨rfl, -⟩ := h
        intro x hx
        rcases List.mem_cons.mp hx with hxe | hxt
        · subst hxe; exact le_of_lt hk
        · exact ih ht x hxt
      · simp only [if_neg hk, Option.some.injEq, Prod.mk.injEq] at h
        obtain ⟨rfl, -⟩ := h
        intro x hx
        rcases List.mem_cons.mp hx with hxe | hxt
        · subst hxe; exact le_refl _
        · exact le_trans (ih ht x hxt) (Nat.le_of_not_lt hk)

theorem removeMin_length {l : List LeafNode} {p : LeafNode} {rest : List LeafNode}
    (h : removeMin l = some (p, rest)) : rest.length + 1 = l.length := by
  have hl := (removeMin_perm h).length_eq
  simp only [List.length_cons] at hl
  omega

theorem removeMax_length {l : List LeafNode} {p : LeafNode} {rest : List LeafNode}
    (h : removeMax l = some (p, rest)) : rest.length + 1 = l.length := by
  have hl := (removeMax_perm h).length_eq
  simp only [List.length_cons] at hl
  omega

theorem LeafNode.price_mono {a b : LeafNode} (h : a.key ≤ b.key) : a.price ≤ b.price := by
  simp only [LeafNode.price, Nat.shiftRight_eq_div_pow]
  exact Nat.div_le_div_right h

/-- One pass of the process_asks loop of Market::process_asks.  The loop
repeatedly calls remove_min until the slab is exhausted; it is embedded with a
fuel argument bounding the number of iterations.  Each iteration removes one
node, so fuel equal to the slab size is never exhausted.  For every removed
node: the order id and the ui price are appended when the node owner equals
the orders key of the market, and min_ask (initially 0) is assigned the raw
price whenever it is still 0. -/
def processAsksLoop (ok : Pubkey) : Nat → List LeafNode → (List Nat × List ℚ × Nat) × List LeafNode
  | 0, asks => (([], [], 0), asks)
  | fuel + 1, asks =>
    match removeMin asks with
    | none => (([], [], 0), asks)
    | some (n, rest) =>
      let r := processAsksLoop ok fuel rest
      ((if n.owner = ok then n.orderId :: r.1.1 else r.1.1,
        if n.owner = ok then n.uiPrice :: r.1.2.1 else r.1.2.1,
        if n.price = 0 then r.1.2.2 else n.price), r.2)

/-- Market::process_asks without the Except wrapper: returns
((open_asks, open_asks_prices, min_ask), remaining slab). -/
def processAsksCore (ok : Pubkey) (asks : List LeafNode) :
    (List Nat × List ℚ × Nat) × List LeafNode :=
  processAsksLoop ok asks.length asks

/-- Market::process_bids without the Except wrapper.  The loop body of
process_bids ends in a break on both match arms, so at most one node is ever
removed: the remove_max node.  Since max_bid starts at 0, the conditional
assignment (if max_bid == 0) always fires for that single node. -/
def processBidsCore (ok : Pubkey) (bids : List LeafNode) :
    (List Nat × List ℚ × Nat) × List LeafNode :=
  match removeMax bids with
  | none => (([], [], 0), bids)
  | some (n, rest) =>
    ((if n.owner = ok then [n.orderId] else [],
      if n.owner = ok then [n.uiPrice] else [],
      n.price), rest)

theorem processAsksLoop_spec (ok : Pubkey) :
    ∀ fuel asks, asks.length ≤ fuel →
      (processAsksLoop ok fuel asks).2 = [] ∧
      ∃ l : List LeafNode,
        l.Perm (asks.filter fun x => x.owner = ok) ∧
        (processAsksLoop ok fuel asks).1.1 = l.map LeafNode.orderId ∧
        (processAsksLoop ok fuel asks).1.2.1 = l.map LeafNode.uiPrice := by
  intro fuel
  induction fuel with
  | zero =>
    intro asks h
    have hnil : asks = [] := List.length_eq_zero.mp (Nat.le_zero.mp h)
    subst hnil
    exact ⟨rfl, [], by simp, rfl, rfl⟩
  | succ fuel ih =>
    intro asks h
    cases hm : removeMin asks with
    | none =>
      have hnil : asks = [] := removeMin_eq_none.mp hm
      subst hnil
      exact ⟨by simp [processAsksLoop, removeMin], [], by simp,
        by simp [processAsksLoop, removeMin], by simp [processAsksLoop, removeMin]⟩
    | some q =>
      obtain ⟨n, rest⟩ := q
      have hlen : rest.length ≤ fuel := by
        have := removeMin_length hm; omega
      obtain ⟨hrem, l, hperm, hids, hprices⟩ := ih rest hlen
      have hfil : (asks.filter fun x => x.owner = ok).Perm
          ((n :: rest).filter fun x => x.owner = ok) :=
        (removeMin_perm hm).filter _
      by_cases ho : n.owner = ok
      · refine ⟨by simp [processAsksLoop, hm, hrem], n :: l, ?_, ?_, ?_⟩
        · have hfc : ((n :: rest).filter fun x => x.owner = ok)
              = n :: (rest.filter fun x => x.owner = ok) := by
            simp [List.filter_cons, ho]
          rw [hfc] at hfil
          exact (List.Perm.cons n hperm).trans hfil.symm
        · simp [processAsksLoop, hm, ho, hids]
        · simp [processAsksLoop, hm, ho, hprices]
      · refine ⟨by simp [processAsksLoop, hm, hrem], l, ?_, ?_, ?_⟩
        · have hfc : ((n :: rest).filter fun x => x.owner = ok)
              = rest.filter fun x => x.owner = ok := by
            simp [List.filter_cons, ho]
          rw [hfc] at hfil
          exact hperm.trans hfil.symm
        · simp [processAsksLoop, hm, ho, hids]
        · simp [processAsksLoop, hm, ho, hprices]

theorem processAsksLoop_min (ok : Pubkey) (fuel : Nat) (asks : List LeafNode)
    (hlen : asks.length ≤ fuel) (hpos : ∀ x ∈ asks, 0 < x.price) (hne : asks ≠ []) :
    (processAsksLoop ok fuel asks).1.2.2 ∈ asks.map LeafNode.price ∧
    ∀ p ∈ asks.map LeafNode.price, (processAsksLoop ok fuel asks).1.2.2 ≤ p := by
  cases fuel with
  | zero =>
    cases asks with
    | nil => exact absurd rfl hne
    | cons a t => simp at hlen
  | succ fuel =>
    cases hm : removeMin asks with
    | none => exact absurd (removeMin_eq_none.mp hm) hne
    | some q =>
      obtain ⟨n, rest⟩ := q
      have hn_mem : n ∈ asks :=
        (removeMin_perm hm).mem_iff.mpr (List.mem_cons_self n rest)
      have hnp : n.price ≠ 0 := Nat.pos_iff_ne_zero.mp (hpos n hn_mem)
      have hm_eq : (processAsksLoop ok (fuel + 1) asks).1.2.2 = n.price := by
        simp [processAsksLoop, hm, hnp]
      constructor
      · rw [hm_eq]
        exact List.mem_map_of_mem _ hn_mem
      · intro p hp
        rw [hm_eq]
        obtain ⟨x, hx, rfl⟩ := List.mem_map.mp hp
        exact LeafNode.price_mono (removeMin_le hm x hx)

/-- Modelled from the spec: the MarketInfo record lives in the orders module,
which is not among the provided sources.  Its fields are reconstructed from
the literal built in Market::load_bids_asks_info: extreme prices, the lists of
the callers own order ids and prices on each side, the two tree addresses and
two float totals (modelled as rationals). -/
structure MarketInfo where
  min_ask : Nat
  max_bid : Nat
  open_asks : List Nat
  open_bids : List Nat
  bids_address : Pubkey
  asks_address : Pubkey
  open_asks_prices : List ℚ
  open_bids_prices : List ℚ
  base_total : ℚ
  quote_total : ℚ
deriving DecidableEq

/-- The Default value of MarketInfo (all fields zero or empty). -/
def MarketInfo.def0 : MarketInfo := ⟨0, 0, [], [], 0, 0, [], [], 0, 0⟩

/-- Modelled from the spec: the OpenOrders record lives in the orders module,
which is not among the provided sources.  Per the spec it is a per-owner
record for a market; the constructor arguments mirror the call
OpenOrders::new(market_address, decoded, keypair.pubkey()) in Market::new. -/
structure OpenOrders where
  market : Pubkey
  decoded : Nat
  owner : Pubkey
deriving DecidableEq

/-- OpenOrders::new, storing its three arguments. -/
def OpenOrders.new (market : Pubkey) (decoded : Nat) (owner : Pubkey) : OpenOrders :=
  ⟨market, decoded, owner⟩

/-- Modelled from the spec: an open-orders cache entry maps to a list of
accounts plus a capture timestamp in milliseconds (field ts). -/
structure OpenOrdersCacheEntry where
  accounts : List OpenOrders
  ts : Nat
deriving DecidableEq

/-- The fields of the decoded on-chain market control block that market.rs
reads (MarketState of the openbook_dex crate, at its interface boundary).
Address-valued fields are stored as already-decoded addresses: the composition
u64_slice_to_bytes then Pubkey::new_from_array is a bijection from the raw
words to addresses and is modelled as the identity. -/
structure MarketStateData where
  account_flags : Nat
  coin_vault : Pubkey
  pc_vault : Pubkey
  req_q : Pubkey
  event_q : Pubkey
  bids : Pubkey
  asks : Pubkey
  coin_lot_size : Nat
  pc_lot_size : Nat
deriving DecidableEq

/-- The decoded payload of a fetched account buffer. -/
inductive AccountData
  | market (ms : MarketStateData)
  | slab (nodes : List LeafNode)
  | raw
deriving DecidableEq

/-- A fetched ledger account: recorded owner program, lamports, payload, and
whether its bytes happen to deserialize as NonceData (the stray
deserialize_data call in load_market_state_bids_info). -/
structure Account where
  owner : Pubkey
  lamports : Nat
  data : AccountData
  nonce_decodable : Bool
deriving DecidableEq

/-- A keyed token account record as returned by get_token_accounts_by_owner. -/
structure TokenAccountRecord where
  pubkey : Pubkey
deriving DecidableEq

/-- Side of an order (matching::Side). -/
inductive Side
  | bid
  | ask
deriving DecidableEq

/-- Order type (matching::OrderType). -/
inductive OrderType
  | limit
  | immediateOrCancel
  | postOnly
deriving DecidableEq

/-- Self-trade policy (instruction::SelfTradeBehavior). -/
inductive SelfTradeBehavior
  | decrementTake
  | cancelProvide
  | abortTransaction
deriving DecidableEq

/-- The SPL token program id (anchor_spl::token::ID), an external constant. -/
def anchorTokenID : Pubkey := 800001

/-- The rent sysvar id (solana_program::sysvar::rent::ID), an external
constant. -/
def rentSysvarID : Pubkey := 800002

/-- Instructions built by the orchestrator, one constructor per external
builder function, holding the arguments in the order of the Rust call. -/
inductive Instruction
  | newOrder (market open_orders request_queue event_queue market_bids market_asks
      order_payer owner coin_vault pc_vault spl_token rent_sysvar : Pubkey)
      (srm_account_referral : Option Pubkey) (program_id : Pubkey)
      (side : Side) (limit_price : Nat) (max_coin_qty : Nat) (order_type : OrderType)
      (client_order_id : Nat) (self_trade_behavior : SelfTradeBehavior)
      (limit : Nat) (max_native_pc_qty_including_fees : Nat) (max_ts : Nat)
  | cancelOrder (program_id market market_bids market_asks open_orders owner
      event_queue : Pubkey) (side : Side) (order_id : Nat)
  | settleFunds (program_id market spl_token open_orders owner coin_vault
      coin_wallet pc_vault pc_wallet : Pubkey) (referrer_pc_wallet : Option Pubkey)
      (vault_signer : Pubkey)
  | matchOrders (program_id market request_queue market_bids market_asks event_queue
      coin_fee_receivable pc_fee_receivable : Pubkey) (limit : Nat)
  | consumeEvents (program_id : Pubkey) (open_orders_accounts : List Pubkey)
      (market event_queue coin_fee_receivable pc_fee_receivable : Pubkey) (limit : Nat)
  | createAssociatedTokenAccount (funding wallet token_mint token_program : Pubkey)
deriving DecidableEq

/-- A transaction as assembled by the client: instruction list, fee payer,
the credentials that signed it, and the recency token (blockhash) it carries
(none when the transaction was never signed). -/
structure Transaction where
  instructions : List Instruction
  payer : Option Pubkey
  signers : List Pubkey
  blockhash : Option Nat
deriving DecidableEq

/-- Submission configuration; RpcSendTransactionConfig::default() has
skip_preflight = false. -/
structure RpcSendTransactionConfig where
  skip_preflight : Bool
deriving DecidableEq

/-- The configuration every orchestrator operation submits with: the default
configuration with skip_preflight switched to true. -/
def skipPreflightConfig : RpcSendTransactionConfig := ⟨true⟩

/-- A remote (RPC) call performed against the ledger connection. -/
inductive RpcCall
  | getAccount (address : Pubkey)
  | getLatestBlockhash
  | sendTransactionWithConfig (txn : Transaction) (config : RpcSendTransactionConfig)
  | sendAndConfirmTransaction (txn : Transaction)
  | getTokenAccountsByOwner (owner : Pubkey)
  | findForMarketAndOwner (market_signer owner : Pubkey)
deriving DecidableEq

/-- The responses the remote ledger gives during one operation; each field is
the response to the corresponding call. -/
structure World where
  getAccount : Pubkey → Except String Account
  latestBlockhash : Except String Nat
  sendResult : Except String Nat
  sendAndConfirmResult : Except String Nat
  tokenAccountsByOwner : Except String (List TokenAccountRecord)
  findForMarketAndOwnerResult : Except String (List Account)

/-- The Market struct of market.rs.  The signing keypair is represented by its
public key (signing is modelled as listing that key among the transaction
signers); the rpc client handle itself carries no state and is omitted. -/
structure Market where
  program_id : Pubkey
  market_address : Pubkey
  keypair_pub : Pubkey
  coin_decimals : Nat
  pc_decimals : Nat
  coin_lot_size : Nat
  account_flags : Nat
  pc_lot_size : Nat
  usdc_ata : Pubkey
  wsol_ata : Pubkey
  coin_vault : Pubkey
  pc_vault : Pubkey
  vault_signer_key : Pubkey
  orders_key : Pubkey
  event_queue : Pubkey
  request_queue : Pubkey
  open_orders_accounts_cache : List (Pubkey × OpenOrdersCacheEntry)
  market_info : MarketInfo
deriving DecidableEq

/-- Errors surfaced by load and its helpers.  Market::load signals an
ownership mismatch as ProgramError::InvalidArgument. -/
inductive LoadErr
  | client (e : String)
  | invalidArgument
  | deserializeData
  | marketStateLoad
  | slabLoad
deriving DecidableEq

/-- MarketState::load of the external dex crate, at its interface boundary:
succeeds when the account payload decodes as a market control block.  (Its
internal owner check compares against the owner field of the AccountInfo,
which create_account_info_from_account populates with the program id itself,
so that check cannot fail here.) -/
def marketStateLoad (a : Account) : Except String MarketStateData :=
  match a.data with
  | .market ms => .ok ms
  | _ => .error "failed to deserialize market state"

/-- MarketState::load_bids_mut and load_asks_mut at their interface boundary:
succeed when the account payload decodes as a slab. -/
def loadSlab (a : Account) : Except String (List LeafNode) :=
  match a.data with
  | .slab ns => .ok ns
  | _ => .error "failed to deserialize slab"

/-- Market::process_bids: loops on Slab::remove_max but breaks after the
first removed node; every code path returns Ok. -/
def Market.process_bids (m : Market) (bids : List LeafNode) :
    Except String ((List Nat × List ℚ × Nat) × List LeafNode) :=
  Except.ok (processBidsCore m.orders_key bids)

/-- Market::process_asks: loops on Slab::remove_min until the slab is
exhausted; every code path returns Ok. -/
def Market.process_asks (m : Market) (asks : List LeafNode) :
    Except String ((List Nat × List ℚ × Nat) × List LeafNode) :=
  Except.ok (processAsksCore m.orders_key asks)

/-- Market::get_bids_asks_addresses: reads the bids and asks words from the
control block and converts them to addresses (the conversion is the identity
in this model, see MarketStateData). -/
def Market.get_bids_asks_addresses (_m : Market) (ms : MarketStateData) : Pubkey × Pubkey :=
  (ms.bids, ms.asks)

/-- Market::load_bids_asks_info: derives the two tree addresses, fetches and
decodes each tree account, runs the extractors, and overwrites market_info
with the fresh snapshot. -/
def Market.load_bids_asks_info (m : Market) (w : World) (ms : MarketStateData) :
    Except LoadErr (Pubkey × Pubkey × MarketInfo) × Market × List RpcCall :=
  let ba := Market.get_bids_asks_addresses m ms
  let bids_address := ba.1
  let asks_address := ba.2
  match w.getAccount bids_address with
  | .error e => (.error (.client e), m, [.getAccount bids_address])
  | .ok bidsAccount =>
    match loadSlab bidsAccount with
    | .error _ => (.error .slabLoad, m, [.getAccount bids_address])
    | .ok bidsNodes =>
      let pb := processBidsCore m.orders_key bidsNodes
      match w.getAccount asks_address with
      | .error e => (.error (.client e), m,
          [.getAccount bids_address, .getAccount asks_address])
      | .ok asksAccount =>
        match loadSlab asksAccount with
        | .error _ => (.error .slabLoad, m,
            [.getAccount bids_address, .getAccount asks_address])
        | .ok asksNodes =>
          let pa := processAsksCore m.orders_key asksNodes
          let info : MarketInfo :=
            { min_ask := pa.1.2.2
              max_bid := pb.1.2.2
              open_asks := pa.1.1
              open_bids := pb.1.1
              bids_address := bids_address
              asks_address := asks_address
              open_asks_prices := pa.1.2.1
              open_bids_prices := pb.1.2.1
              base_total := 0
              quote_total := 0 }
          let m' := { m with market_info := info }
          (.ok (bids_address, asks_address, info), m',
           [.getAccount bids_address, .getAccount asks_address])

/-- Market::load_market_state_bids_info: tries the stray NonceData
deserialization, decodes the market state, copies the vault and queue
addresses, flags and lot sizes into the Market fields, then loads the bids
and asks info. -/
def Market.load_market_state_bids_info (m : Market) (w : World) (account : Account) :
    Except LoadErr MarketStateData × Market × List RpcCall :=
  if account.nonce_decodable = false then (.error .deserializeData, m, [])
  else
    match marketStateLoad account with
    | .error _ => (.error .marketStateLoad, m, [])
    | .ok ms =>
      let m' := { m with
        coin_vault := ms.coin_vault
        pc_vault := ms.pc_vault
        request_queue := ms.req_q
        account_flags := ms.account_flags
        coin_lot_size := ms.coin_lot_size
        pc_lot_size := ms.pc_lot_size
        event_queue := ms.event_q }
      match Market.load_bids_asks_info m' w ms with
      | (.error e, m'', calls) => (.error e, m'', calls)
      | (.ok _, m'', calls) => (.ok ms, m'', calls)

/-- Market::load: fetches the market account, checks that its recorded owner
program equals the expected program id (ownership mismatch aborts with
InvalidArgument before anything is written), then delegates to
load_market_state_bids_info. -/
def Market.load (m : Market) (w : World) :
    Except LoadErr MarketStateData × Market × List RpcCall :=
  match w.getAccount m.market_address with
  | .error e => (.error (.client e), m, [.getAccount m.market_address])
  | .ok account =>
    let owner := account.owner
    if m.program_id ≠ owner then
      (.error .invalidArgument, m, [.getAccount m.market_address])
    else
      match Market.load_market_state_bids_info m w account with
      | (r, m', calls) => (r, m', .getAccount m.market_address :: calls)

deriving instance DecidableEq for Except

/-- Errors of the orchestrator operations: an assertion failure or an unwrap
panic aborts before any call; client errors come from the transport. -/
inductive OpError
  | assertionFailed (msg : String)
  | panicked
  | client (e : String)
deriving DecidableEq

/-- Result and remote-call trace of one orchestrator operation. -/
structure OpOutcome where
  result : Except OpError Nat
  trace : List RpcCall
deriving DecidableEq

/-- Lifts a transport submission result into an operation result. -/
def liftSend : Except String Nat → Except OpError Nat
  | .ok s => .ok s
  | .error e => .error (.client e)

/-- The new_order instruction built by Market::place_limit_bid, with the
argument values of the Rust call: side Bid, limit price max_bid, quantity
coin_lot_size, order type PostOnly, a random 64-bit client order id (the rnd
argument), self-trade behavior AbortTransaction, match limit u16::MAX, quote
budget (1.0 * 1e6 * 1.1) as u64 (the f64 product rounds to exactly 1100000.0,
so the cast yields 1100000), and expiry get_unix_secs() + 30 (the now
argument models the clock read). -/
def Market.place_limit_bid_ix (m : Market) (now rnd max_bid : Nat) : Instruction :=
  Instruction.newOrder m.market_address m.orders_key m.request_queue m.event_queue
    m.market_info.bids_address m.market_info.asks_address m.usdc_ata m.keypair_pub
    m.coin_vault m.pc_vault anchorTokenID rentSysvarID none m.program_id
    Side.bid max_bid m.coin_lot_size OrderType.postOnly rnd
    SelfTradeBehavior.abortTransaction 65535 1100000 (now + 30)

/-- Market::place_limit_bid: asserts max_bid > 0 before any call, unwraps
NonZeroU64::new(coin_lot_size), builds one new_order instruction, fetches a
fresh blockhash, signs with the keypair as payer, and submits with
skip_preflight = true. -/
def Market.place_limit_bid (m : Market) (w : World) (now rnd : Nat) (max_bid : Nat) :
    OpOutcome :=
  if max_bid = 0 then
    ⟨.error (.assertionFailed "Max bid must be greater than zero"), []⟩
  else if m.coin_lot_size = 0 then ⟨.error .panicked, []⟩
  else
    let ix := Market.place_limit_bid_ix m now rnd max_bid
    match w.latestBlockhash with
    | .error e => ⟨.error (.client e), [.getLatestBlockhash]⟩
    | .ok bh =>
      let txn : Transaction := ⟨[ix], some m.keypair_pub, [m.keypair_pub], some bh⟩
      ⟨liftSend w.sendResult,
       [.getLatestBlockhash, .sendTransactionWithConfig txn skipPreflightConfig]⟩

/-- Market::cancel_order: asserts order_id > 0 before any call, builds one
cancel_order instruction on the bid side, fetches a fresh blockhash, signs
with the keypair as payer, and submits with skip_preflight = true. -/
def Market.cancel_order (m : Market) (w : World) (order_id : Nat) : OpOutcome :=
  if order_id = 0 then
    ⟨.error (.assertionFailed "Order ID must be greater than zero"), []⟩
  else
    let ix := Instruction.cancelOrder m.program_id m.market_address
      m.market_info.bids_address m.market_info.asks_address m.orders_key
      m.keypair_pub m.event_queue Side.bid order_id
    match w.latestBlockhash with
    | .error e => ⟨.error (.client e), [.getLatestBlockhash]⟩
    | .ok bh =>
      let txn : Transaction := ⟨[ix], some m.keypair_pub, [m.keypair_pub], some bh⟩
      ⟨liftSend w.sendResult,
       [.getLatestBlockhash, .sendTransactionWithConfig txn skipPreflightConfig]⟩

/-- Market::settle_balance: builds one settle_funds instruction, fetches a
fresh blockhash, signs with the keypair as payer, and submits with
skip_preflight = true. -/
def Market.settle_balance (m : Market) (w : World) : OpOutcome :=
  let ix := Instruction.settleFunds m.program_id m.market_address anchorTokenID
    m.orders_key m.keypair_pub m.coin_vault m.wsol_ata m.pc_vault m.usdc_ata
    none m.vault_signer_key
  match w.latestBlockhash with
  | .error e => ⟨.error (.client e), [.getLatestBlockhash]⟩
  | .ok bh =>
    let txn : Transaction := ⟨[ix], some m.keypair_pub, [m.keypair_pub], some bh⟩
    ⟨liftSend w.sendResult,
     [.getLatestBlockhash, .sendTransactionWithConfig txn skipPreflightConfig]⟩

/-- Market::make_match_orders_transaction: builds an unsigned transaction
with an EMPTY instruction list (the match_orders instruction is constructed
but never added), fetches no blockhash, and submits that empty transaction
with skip_preflight = true. -/
def Market.make_match_orders_transaction (m : Market) (w : World) (limit : Nat) :
    OpOutcome :=
  let tx : Transaction := ⟨[], some m.keypair_pub, [], none⟩
  let _match_orders_ix := Instruction.matchOrders m.program_id m.market_address
    m.request_queue m.market_info.bids_address m.market_info.asks_address
    m.event_queue m.coin_vault m.pc_vault limit
  ⟨liftSend w.sendResult, [.sendTransactionWithConfig tx skipPreflightConfig]⟩

/-- Market::make_consume_events_instruction: builds one consume_events
instruction and wraps it in an unsigned transaction (payer set, no blockhash
fetched, no signature), submitted with skip_preflight = true. -/
def Market.make_consume_events_instruction (m : Market) (w : World)
    (open_orders_accounts : List Pubkey) (limit : Nat) : OpOutcome :=
  let consume_events_ix := Instruction.consumeEvents m.program_id
    open_orders_accounts m.market_address m.event_queue m.coin_vault m.pc_vault limit
  let tx : Transaction := ⟨[consume_events_ix], some m.keypair_pub, [], none⟩
  ⟨liftSend w.sendResult, [.sendTransactionWithConfig tx skipPreflightConfig]⟩

/-- get_associated_token_address of the external spl crate: a deterministic
derivation from wallet and mint, modelled as an injective pairing. -/
def getAssociatedTokenAddress (wallet mint : Pubkey) : Pubkey := Nat.pair wallet mint

/-- Market::find_or_create_associated_token_account: derives the
associated-token address, scans the wallet token accounts for it, and when it
is absent builds, signs and submits a creation transaction — the submission
result is only logged at debug level, and the function returns the derived
address as a success in BOTH arms of the match. -/
def Market.find_or_create_associated_token_account (_m : Market) (w : World)
    (wallet_pub mint : Pubkey) : Except String Pubkey × List RpcCall :=
  let ata_address := getAssociatedTokenAddress wallet_pub mint
  match w.tokenAccountsByOwner with
  | .error e => (.error e, [.getTokenAccountsByOwner wallet_pub])
  | .ok tokens =>
    if tokens.any fun t => t.pubkey == ata_address then
      (.ok ata_address, [.getTokenAccountsByOwner wallet_pub])
    else
      let create_ata_ix := Instruction.createAssociatedTokenAccount wallet_pub
        ata_address mint anchorTokenID
      match w.latestBlockhash with
      | .error e => (.error e, [.getTokenAccountsByOwner wallet_pub, .getLatestBlockhash])
      | .ok bh =>
        let txn : Transaction := ⟨[create_ata_ix], some wallet_pub, [wallet_pub], some bh⟩
        let _result := w.sendAndConfirmResult
        (.ok ata_address,
         [.getTokenAccountsByOwner wallet_pub, .getLatestBlockhash,
          .sendAndConfirmTransaction txn])

/-- Association-list lookup standing in for HashMap::get on the open-orders
cache. -/
def cacheLookup : List (Pubkey × OpenOrdersCacheEntry) → Pubkey → Option OpenOrdersCacheEntry
  | [], _ => none
  | (k, v) :: rest, key => if k = key then some v else cacheLookup rest key

/-- Market::find_open_orders_accounts_for_owner: computes the freshness check
now - ts < cache_duration_ms on a cache hit, but the early-return inside that
branch and the cache write-back after the lookup are both commented out, so
the check is discarded, the remote lookup always runs, and the cache map is
never touched. -/
def Market.find_open_orders_accounts_for_owner (m : Market) (w : World) (now : Nat)
    (owner_address : Pubkey) (cache_duration_ms : Nat) :
    Except String (List Account) × Market × List RpcCall :=
  let _freshness :=
    match cacheLookup m.open_orders_accounts_cache owner_address with
    | some entry => decide (now - entry.ts < cache_duration_ms)
    | none => false
  match w.findForMarketAndOwnerResult with
  | .error e => (.error e, m, [.findForMarketAndOwner m.keypair_pub owner_address])
  | .ok accs => (.ok accs, m, [.findForMarketAndOwner m.keypair_pub owner_address])

/-- The pure construction segment of Market::new (lines 172 to 213 of
market.rs), executed before the first remote call: all address fields default
to zero, decimals and lot sizes take their hard-coded values, and the
open-orders cache is pre-seeded with one entry for the keypair public key
holding a single OpenOrders::new(market_address, Default::default(),
keypair.pubkey()) and the literal timestamp 123456789. -/
def Market.newInit (program_id market_address keypair_pub : Pubkey) : Market :=
  let decoded : Nat := 0
  let open_orders := OpenOrders.new market_address decoded keypair_pub
  let open_orders_cache_entry : OpenOrdersCacheEntry :=
    { accounts := [open_orders], ts := 123456789 }
  { program_id := program_id
    market_address := market_address
    keypair_pub := keypair_pub
    coin_decimals := 9
    pc_decimals := 6
    coin_lot_size := 1000000
    pc_lot_size := 1
    usdc_ata := 0
    wsol_ata := 0
    coin_vault := 0
    pc_vault := 0
    vault_signer_key := 0
    orders_key := 0
    event_queue := 0
    request_queue := 0
    account_flags := 0
    open_orders_accounts_cache := [(keypair_pub, open_orders_cache_entry)]
    market_info := MarketInfo.def0 }

/-! Concrete fixtures used by witnesses and counterexamples. -/

/-- A concrete market as built by the pure segment of Market::new. -/
def m0 : Market := Market.newInit 11 22 33

/-- A concrete world whose responses all succeed. -/
def w0 : World :=
  { getAccount := fun _ => .ok ⟨11, 0, .raw, true⟩
    latestBlockhash := .ok 5
    sendResult := .ok 77
    sendAndConfirmResult := .ok 88
    tokenAccountsByOwner := .ok []
    findForMarketAndOwnerResult := .ok [] }

/-- A world returning a market account recorded as owned by program 999,
which differs from the program id 11 of m0. -/
def wMismatch : World := { w0 with getAccount := fun _ => .ok ⟨999, 0, .raw, true⟩ }

/-- A world with no existing token accounts and a failing transaction
submission. -/
def wSendFail : World := { w0 with sendAndConfirmResult := .error "transport failure" }

/-- A concrete two-node bid slab (raw prices 2 and 9). -/
def bids0 : List LeafNode := [⟨2 <<< 64 + 3, 5⟩, ⟨9 <<< 64 + 1, 7⟩]

/-- A concrete two-node ask slab (raw prices 4 and 3, owners 5 and 6). -/
def asksC3 : List LeafNode := [⟨4 <<< 64 + 2, 5⟩, ⟨3 <<< 64 + 8, 6⟩]

/-- A concrete three-node ask slab with two nodes owned by 33 and one foreign
node owned by 44 (raw prices 3, 2 and 7). -/
def asks0 : List LeafNode := [⟨3 <<< 64 + 1, 33⟩, ⟨2 <<< 64 + 5, 44⟩, ⟨7 <<< 64 + 2, 33⟩]

/-! Claim theorems. -/

/-- Claim C1: whenever the fetched market account records an owner program
different from the expected program id, Market::load returns the
ownership-mismatch error (InvalidArgument) after the single fetch, and the
Market value — in particular every cached address field, the flags, the lot
sizes and market_info — is left unchanged. -/
theorem market_c1_load_ownership_mismatch (m : Market) (w : World) (account : Account)
    (hget : w.getAccount m.market_address = Except.ok account)
    (hown : account.owner ≠ m.program_id) :
    Market.load m w =
      (Except.error LoadErr.invalidArgument, m, [RpcCall.getAccount m.market_address]) := by
  have h2 : m.program_id ≠ account.owner := fun he => hown he.symm
  simp [Market.load, hget, h2]

/-- Witness for C1 at a concrete market and world with owner 999 against
program id 11. -/
theorem market_c1_witness :
    wMismatch.getAccount m0.market_address = Except.ok ⟨999, 0, AccountData.raw, true⟩ ∧
    (999 : Pubkey) ≠ m0.program_id ∧
    Market.load m0 wMismatch =
      (Except.error LoadErr.invalidArgument, m0, [RpcCall.getAccount m0.market_address]) :=
  ⟨rfl, by decide,
    market_c1_load_ownership_mismatch m0 wMismatch ⟨999, 0, AccountData.raw, true⟩ rfl
      (by decide)⟩

/-- Submission discipline the spec asserts for an orchestrator operation: one
instruction, payable by the caller key, a blockhash fetched immediately
before signing and carried by the signed transaction, signed by the caller
key, submitted with skip_preflight = true. -/
def signedSingleInstructionSubmission (m : Market) (w : World) (o : OpOutcome) : Prop :=
  ∃ txn config bh,
    w.latestBlockhash = Except.ok bh ∧
    o.trace = [RpcCall.getLatestBlockhash, RpcCall.sendTransactionWithConfig txn config] ∧
    txn.instructions.length = 1 ∧
    txn.payer = some m.keypair_pub ∧
    txn.signers = [m.keypair_pub] ∧
    txn.blockhash = some bh ∧
    config.skip_preflight = true

/-- Counterexample for C2: make_match_orders_transaction submits a single
send call with an unsigned, blockhash-free transaction holding ZERO
instructions — it never fetches a blockhash, so it violates the submission
discipline claimed for all five operations. -/
theorem market_c2_counterexample :
    ¬ signedSingleInstructionSubmission m0 w0
        (Market.make_match_orders_transaction m0 w0 10) := by
  rintro ⟨txn, config, bh, -, htrace, -, -, -, -, -⟩
  simp [Market.make_match_orders_transaction] at htrace

/-- The actual submission behavior of the five mutating operations: place
limit bid, cancel order and settle balance follow the claimed discipline;
match orders submits an empty, unsigned, blockhash-free transaction; consume
events submits a one-instruction, unsigned, blockhash-free transaction; all
with skip_preflight = true. -/
def orchestratorSubmissionSpec (m : Market) (w : World)
    (now rnd b oid mlimit climit : Nat) (ooa : List Pubkey) : Prop :=
  signedSingleInstructionSubmission m w (Market.place_limit_bid m w now rnd b) ∧
  signedSingleInstructionSubmission m w (Market.cancel_order m w oid) ∧
  signedSingleInstructionSubmission m w (Market.settle_balance m w) ∧
  (Market.make_match_orders_transaction m w mlimit).trace =
    [RpcCall.sendTransactionWithConfig ⟨[], some m.keypair_pub, [], none⟩
      skipPreflightConfig] ∧
  (Market.make_consume_events_instruction m w ooa climit).trace =
    [RpcCall.sendTransactionWithConfig
      ⟨[Instruction.consumeEvents m.program_id ooa m.market_address m.event_queue
          m.coin_vault m.pc_vault climit],
       some m.keypair_pub, [], none⟩ skipPreflightConfig]

/-- Claim C2 as amended: of the five mutating operations only place limit
bid, cancel order and settle balance build one instruction, fetch a fresh
blockhash immediately before signing, sign with the caller credential and
submit with skip_preflight = true; match orders submits an empty unsigned
transaction without fetching a blockhash, and consume events submits its one
instruction unsigned and without a blockhash, both also with
skip_preflight = true. -/
theorem market_c2_amended (m : Market) (w : World)
    (now rnd b oid mlimit climit : Nat) (ooa : List Pubkey) (bh : Nat)
    (hb : 0 < b) (hoid : 0 < oid) (hcls : 0 < m.coin_lot_size)
    (hbh : w.latestBlockhash = Except.ok bh) :
    orchestratorSubmissionSpec m w now rnd b oid mlimit climit ooa := by
  have hb0 : ¬ b = 0 := by omega
  have hoid0 : ¬ oid = 0 := by omega
  have hc0 : ¬ m.coin_lot_size = 0 := by omega
  refine ⟨?_, ?_, ?_, ?_, ?_⟩
  · refine ⟨⟨[Market.place_limit_bid_ix m now rnd b], some m.keypair_pub,
      [m.keypair_pub], some bh⟩, skipPreflightConfig, bh, hbh, ?_, rfl, rfl, rfl, rfl, rfl⟩
    simp [Market.place_limit_bid, hb0, hc0, hbh]
  · refine ⟨⟨[Instruction.cancelOrder m.program_id m.market_address
      m.market_info.bids_address m.market_info.asks_address m.orders_key
      m.keypair_pub m.event_queue Side.bid oid], some m.keypair_pub,
      [m.keypair_pub], some bh⟩, skipPreflightConfig, bh, hbh, ?_, rfl, rfl, rfl, rfl, rfl⟩
    simp [Market.cancel_order, hoid0, hbh]
  · refine ⟨⟨[Instruction.settleFunds m.program_id m.market_address anchorTokenID
      m.orders_key m.keypair_pub m.coin_vault m.wsol_ata m.pc_vault m.usdc_ata
      none m.vault_signer_key], some m.keypair_pub,
      [m.keypair_pub], some bh⟩, skipPreflightConfig, bh, hbh, ?_, rfl, rfl, rfl, rfl, rfl⟩
    simp [Market.settle_balance, hbh]
  · simp [Market.make_match_orders_transaction]
  · simp [Market.make_consume_events_instruction]

/-- Witness for the amended C2 at concrete inputs. -/
theorem market_c2_witness :
    (0 < (1 : Nat) ∧ 0 < m0.coin_lot_size ∧ w0.latestBlockhash = Except.ok 5) ∧
    orchestratorSubmissionSpec m0 w0 6 9 1 1 10 10 [44] :=
  ⟨⟨by decide, by decide, rfl⟩,
    market_c2_amended m0 w0 6 9 1 1 10 10 [44] 5 (by decide) (by decide) (by decide) rfl⟩

/-- What the two extractors do: the bid walk removes exactly the
maximum-keyed node and stops, reporting its raw price as max_bid and its
order id and ui price when the node belongs to the orders key; the ask walk
drains the tree, collects exactly the owned orders (ids and ui prices), and
reports the least raw price in the tree as min_ask. -/
def extractorsSpec (ok : Pubkey) (bids asks : List LeafNode) : Prop :=
  (∃ n rest, removeMax bids = some (n, rest) ∧ n ∈ bids ∧
    (∀ x ∈ bids, x.key ≤ n.key) ∧ rest.length + 1 = bids.length ∧
    processBidsCore ok bids =
      ((if n.owner = ok then [n.orderId] else [],
        if n.owner = ok then [n.uiPrice] else [],
        n.price), rest)) ∧
  ((processAsksCore ok asks).2 = [] ∧
   (∃ l : List LeafNode, l.Perm (asks.filter fun x => x.owner = ok) ∧
      (processAsksCore ok asks).1.1 = l.map LeafNode.orderId ∧
      (processAsksCore ok asks).1.2.1 = l.map LeafNode.uiPrice) ∧
   (asks ≠ [] →
      (processAsksCore ok asks).1.2.2 ∈ asks.map LeafNode.price ∧
      ∀ p ∈ asks.map LeafNode.price, (processAsksCore ok asks).1.2.2 ≤ p))

/-- Claim C3: on a non-empty bid tree process_bids removes and processes
exactly one node, the maximum-keyed one, and returns its price as max_bid;
process_asks removes nodes until the tree is exhausted, collecting every
caller-owned ask order and the minimum price (given the slab invariant that
every stored price is non-zero). -/
theorem market_c3_extractors (ok : Pubkey) (bids asks : List LeafNode)
    (hb : bids ≠ []) (hap : ∀ x ∈ asks, 0 < x.price) :
    extractorsSpec ok bids asks := by
  unfold extractorsSpec
  constructor
  · cases hm : removeMax bids with
    | none => exact absurd (removeMax_eq_none.mp hm) hb
    | some q =>
      obtain ⟨n, rest⟩ := q
      refine ⟨n, rest, rfl, ?_, removeMax_ge hm, removeMax_length hm, ?_⟩
      · exact (removeMax_perm hm).mem_iff.mpr (List.mem_cons_self n rest)
      · simp [processBidsCore, hm]
  · obtain ⟨h2, l, hperm, hids, hprices⟩ :=
      processAsksLoop_spec ok asks.length asks (le_refl _)
    exact ⟨h2, ⟨l, hperm, hids, hprices⟩,
      fun hne => processAsksLoop_min ok asks.length asks (le_refl _) hap hne⟩

/-- Witness for C3 at concrete slabs. -/
theorem market_c3_witness :
    (bids0 ≠ [] ∧ ∀ x ∈ asksC3, 0 < x.price) ∧ extractorsSpec 5 bids0 asksC3 :=
  ⟨⟨by decide, by decide⟩, market_c3_extractors 5 bids0 asksC3 (by decide) (by decide)⟩

/-- What process_asks returns on a mixed-ownership slab: as many ids and
derived prices as there are caller-owned nodes (the derived price of a node
being its raw price divided by 10000), and the least raw price present in
the tree as min_ask. -/
def asksExtractionSpec (ok : Pubkey) (asks : List LeafNode) : Prop :=
  (processAsksCore ok asks).1.1.length = (asks.filter fun x => x.owner = ok).length ∧
  (processAsksCore ok asks).1.2.1.length = (processAsksCore ok asks).1.1.length ∧
  (∃ l : List LeafNode, l.Perm (asks.filter fun x => x.owner = ok) ∧
    (processAsksCore ok asks).1.1 = l.map LeafNode.orderId ∧
    (processAsksCore ok asks).1.2.1 = l.map LeafNode.uiPrice) ∧
  (asks ≠ [] →
    (processAsksCore ok asks).1.2.2 ∈ asks.map LeafNode.price ∧
    ∀ p ∈ asks.map LeafNode.price, (processAsksCore ok asks).1.2.2 ≤ p)

/-- Claim C7: for an ask tree with N caller-owned nodes interspersed with
foreign nodes, process_asks returns exactly N order ids and N derived prices
(raw price divided by 10000), and a minimum price equal to the least price
key in the tree (under the slab invariant that stored prices are non-zero).
-/
theorem market_c7_asks_extraction (ok : Pubkey) (asks : List LeafNode)
    (hap : ∀ x ∈ asks, 0 < x.price) : asksExtractionSpec ok asks := by
  unfold asksExtractionSpec
  obtain ⟨h2, l, hperm, hids, hprices⟩ :=
    processAsksLoop_spec ok asks.length asks (le_refl _)
  have hids' : (processAsksCore ok asks).1.1 = l.map LeafNode.orderId := hids
  have hprices' : (processAsksCore ok asks).1.2.1 = l.map LeafNode.uiPrice := hprices
  refine ⟨?_, ?_, ⟨l, hperm, hids, hprices⟩,
    fun hne => processAsksLoop_min ok asks.length asks (le_refl _) hap hne⟩
  · rw [hids', List.length_map, hperm.length_eq]
  · rw [hids', hprices', List.length_map, List.length_map]

/-- Witness for C7 at a concrete slab with two owned and one foreign node. -/
theorem market_c7_witness :
    (∀ x ∈ asks0, 0 < x.price) ∧ asksExtractionSpec 33 asks0 :=
  ⟨by decide, market_c7_asks_extraction 33 asks0 (by decide)⟩

/-- Claim C5: find_open_orders_accounts_for_owner always performs the remote
lookup and returns its result, regardless of the cache state and of the
computed freshness check, and it leaves the Market — in particular the
open_orders_accounts_cache map — unchanged. -/
theorem market_c5_cache_inert (m : Market) (w : World)
    (now owner_address cache_duration_ms : Nat) :
    (Market.find_open_orders_accounts_for_owner m w now owner_address
      cache_duration_ms).1 = w.findForMarketAndOwnerResult ∧
    (Market.find_open_orders_accounts_for_owner m w now owner_address
      cache_duration_ms).2.1 = m ∧
    (Market.find_open_orders_accounts_for_owner m w now owner_address
      cache_duration_ms).2.1.open_orders_accounts_cache = m.open_orders_accounts_cache ∧
    (Market.find_open_orders_accounts_for_owner m w now owner_address
      cache_duration_ms).2.2 = [RpcCall.findForMarketAndOwner m.keypair_pub owner_address] := by
  cases h : w.findForMarketAndOwnerResult <;>
    simp [Market.find_open_orders_accounts_for_owner, h]

/-- Claim C6: on an empty tree side each extractor returns Ok with extreme
price 0 and empty id and price lists, never an error. -/
theorem market_c6_empty_tree (m : Market) :
    Market.process_bids m [] = Except.ok (([], [], 0), []) ∧
    Market.process_asks m [] = Except.ok (([], [], 0), []) :=
  ⟨rfl, rfl⟩

/-- Claim C4: with coin lot size 1000000, place_limit_bid(2000) builds a
new_order instruction with limit price 2000, quantity 1000000 (one lot),
quote budget 1100000, post-only type, the random client tag, abort-transaction
self-trade behavior and expiry equal to construction time plus 30 seconds. -/
theorem market_c4_place_limit_bid_params (m : Market) (now rnd : Nat)
    (h : m.coin_lot_size = 1000000) :
    Market.place_limit_bid_ix m now rnd 2000 =
      Instruction.newOrder m.market_address m.orders_key m.request_queue m.event_queue
        m.market_info.bids_address m.market_info.asks_address m.usdc_ata m.keypair_pub
        m.coin_vault m.pc_vault anchorTokenID rentSysvarID none m.program_id
        Side.bid 2000 1000000 OrderType.postOnly rnd SelfTradeBehavior.abortTransaction
        65535 1100000 (now + 30) := by
  simp [Market.place_limit_bid_ix, h]

/-- Witness for C4 at the concrete market m0 (lot size 1000000). -/
theorem market_c4_witness :
    m0.coin_lot_size = 1000000 ∧
    Market.place_limit_bid_ix m0 5 9 2000 =
      Instruction.newOrder m0.market_address m0.orders_key m0.request_queue m0.event_queue
        m0.market_info.bids_address m0.market_info.asks_address m0.usdc_ata m0.keypair_pub
        m0.coin_vault m0.pc_vault anchorTokenID rentSysvarID none m0.program_id
        Side.bid 2000 1000000 OrderType.postOnly 9 SelfTradeBehavior.abortTransaction
        65535 1100000 (5 + 30) :=
  ⟨rfl, market_c4_place_limit_bid_params m0 5 9 rfl⟩

/-- Claim C8: place_limit_bid(0) and cancel_order(0) abort on their
precondition assertions with an empty remote-call trace — no network call is
attempted. -/
theorem market_c8_preconditions (m : Market) (w : World) (now rnd : Nat) :
    Market.place_limit_bid m w now rnd 0 =
      ⟨Except.error (OpError.assertionFailed "Max bid must be greater than zero"), []⟩ ∧
    Market.cancel_order m w 0 =
      ⟨Except.error (OpError.assertionFailed "Order ID must be greater than zero"), []⟩ :=
  ⟨rfl, rfl⟩

/-- Counterexample for C9: with no existing token account and a failing
submission, find_or_create_associated_token_account still reports success
with the derived address, so the operation does swallow the submission
error. -/
theorem market_c9_counterexample :
    wSendFail.sendAndConfirmResult = Except.error "transport failure" ∧
    (Market.find_or_create_associated_token_account m0 wSendFail 33 44).1 =
      Except.ok (getAssociatedTokenAddress 33 44) :=
  ⟨rfl, rfl⟩

/-- Claim C9 as amended: when the token-account scan misses and the creation
transaction submission fails, find_or_create_associated_token_account logs
the failure and still returns the derived associated-token address as a
success, after performing the scan, the blockhash fetch and the submission.
-/
theorem market_c9_amended (m : Market) (w : World) (wallet_pub mint : Pubkey)
    (tokens : List TokenAccountRecord) (bh : Nat) (e : String)
    (htok : w.tokenAccountsByOwner = Except.ok tokens)
    (hmiss : ∀ t ∈ tokens, t.pubkey ≠ getAssociatedTokenAddress wallet_pub mint)
    (hbh : w.latestBlockhash = Except.ok bh)
    (hsend : w.sendAndConfirmResult = Except.error e) :
    (Market.find_or_create_associated_token_account m w wallet_pub mint).1 =
      Except.ok (getAssociatedTokenAddress wallet_pub mint) ∧
    (Market.find_or_create_associated_token_account m w wallet_pub mint).2 =
      [RpcCall.getTokenAccountsByOwner wallet_pub, RpcCall.getLatestBlockhash,
       RpcCall.sendAndConfirmTransaction
         ⟨[Instruction.createAssociatedTokenAccount wallet_pub
             (getAssociatedTokenAddress wallet_pub mint) mint anchorTokenID],
          some wallet_pub, [wallet_pub], some bh⟩] := by
  have hany : (tokens.any fun t => t.pubkey == getAssociatedTokenAddress wallet_pub mint)
      = false := by
    simp only [List.any_eq_false, beq_iff_eq]
    exact hmiss
  constructor <;>
    simp [Market.find_or_create_associated_token_account, htok, hany, hbh]

/-- Witness for the amended C9 at concrete inputs. -/
theorem market_c9_witness :
    (wSendFail.tokenAccountsByOwner = Except.ok [] ∧
     wSendFail.latestBlockhash = Except.ok 5 ∧
     wSendFail.sendAndConfirmResult = Except.error "transport failure") ∧
    (Market.find_or_create_associated_token_account m0 wSendFail 33 44).1 =
      Except.ok (getAssociatedTokenAddress 33 44) ∧
    (Market.find_or_create_associated_token_account m0 wSendFail 33 44).2 =
      [RpcCall.getTokenAccountsByOwner 33, RpcCall.getLatestBlockhash,
       RpcCall.sendAndConfirmTransaction
         ⟨[Instruction.createAssociatedTokenAccount 33
             (getAssociatedTokenAddress 33 44) 44 anchorTokenID],
          some 33, [33], some 5⟩] :=
  ⟨⟨rfl, rfl, rfl⟩,
    market_c9_amended m0 wSendFail 33 44 [] 5 "transport failure" rfl (by decide) rfl rfl⟩

/-- Claim C10: the pure construction segment of Market::new pre-seeds the
open-orders cache, before any remote lookup, with exactly one entry keyed by
the signing public key, holding one default-constructed OpenOrders record and
the hard-coded timestamp 123456789 in place of a real capture time. -/
theorem market_c10_cache_seed (program_id market_address keypair_pub : Pubkey) :
    (Market.newInit program_id market_address keypair_pub).open_orders_accounts_cache =
      [(keypair_pub,
        { accounts := [OpenOrders.new market_address 0 keypair_pub],
          ts := 123456789 })] := rfl

end Openbook
